import Mathlib

/-!
Shallow embedding of the m3 index block engine (package `index`, file
`src/unnamed/part_001`): block lifecycle state machine, active-segment
collection, write batch path with rotation trigger, query path, bootstrap
merge (`AddResults`), `Seal`, and `NeedsMutableSegmentsEvicted`.

Go machine integers (`int`, `int64`) are modelled as `Int`; times and
durations are modelled as `Int` nanoseconds.  Types the block consumes but
whose source is not part of this repository snapshot (`activeSegment`,
`WriteBatch` entries, `segment.MutableSegment` from m3ninx, and
`result.ShardTimeRanges`) are modelled from the spec; their definitions say
so in their doc comments.
-/

namespace M3IndexBlock

/-- Block lifecycle state (`blockState` byte in the source). -/
inductive blockState
  | blockStateClosed
  | blockStateOpen
  | blockStateSealed
deriving DecidableEq, Repr

export blockState (blockStateClosed blockStateOpen blockStateSealed)

/-- Active-segment discriminator (`activeSegmentState` in the source). -/
inductive activeSegmentState
  | mutableActiveSegmentState
  | rotatingActiveSegmentState
  | fstActiveSegmentState
deriving DecidableEq, Repr

export activeSegmentState
  (mutableActiveSegmentState rotatingActiveSegmentState fstActiveSegmentState)

/-- Errors surfaced by block operations.  Each constructor corresponds to a
sentinel error value or formatted error in the source; `memInsertError`
stands in for the opaque per-document error values carried by a
`BatchPartialError` from the m3ninx segment library. -/
inductive BlockError
  | errUnableToWriteBlockClosed
  | errUnableToWriteBlockSealed
  | errUnableToQueryBlockClosed
  | errUnableToBootstrapBlockClosed
  | errUnableToTickBlockClosed
  | errBlockAlreadyClosed
  | errUnableToSealBlockIllegalState (st : blockState)
  | errUnableToWriteBlockUnknownState (st : blockState)
  | errOpenBlockHasNilActiveSegment (st : blockState)
  | errFulfilledRangeOutsideBlockRange
  | errUnknownWriteBatchInvariant
  | errBootstrappingSealedMutableSegmentInvariant
  | batchPartialError (errIdxs : List Nat)
  | memInsertError
  | errSegmentAlreadySealed
deriving DecidableEq, Repr

/-- Modelled from the spec: an in-memory or FST segment from the m3ninx
segment library, reduced to what the block observes: a posting-id offset
(minted from the block's `segmentID` counter, used as identity in place of Go
pointer identity), its documents (`Size()` is their count), and the
sealed / closed flags driven by `Seal()` / `Close()`. -/
structure segmentData where
  segId : Int
  docs : List Nat
  isSealed : Bool
  isClosed : Bool
deriving DecidableEq, Repr

/-- Document count of a segment (`Size()` in the segment contract). -/
def segmentData.Size (s : segmentData) : Int := s.docs.length

/-- Modelled from the spec: `Seal()` freezes a segment's contents. -/
def segmentData.Seal (s : segmentData) : segmentData := { s with isSealed := true }

/-- Modelled from the spec: `Close()` releases a segment. -/
def segmentData.Close (s : segmentData) : segmentData := { s with isClosed := true }

/-- Modelled from the spec: `activeSegment` is a tagged union wrapping either
a mutable in-memory segment, a rotating segment, or a sealed FST segment.
The source uses a discriminator byte with parallel nullable
`mutableSegment` / `fstSegment` fields, mirrored here with `Option`. -/
structure activeSegment where
  creationTime : Int
  state : activeSegmentState
  mutableSegment : Option segmentData
  fstSegment : Option segmentData
deriving DecidableEq, Repr

/-- Modelled from the spec: the segment wrapped by an `activeSegment`
(the FST field in FST state, the mutable field otherwise). -/
def activeSegment.segment (a : activeSegment) : Option segmentData :=
  match a.state with
  | fstActiveSegmentState => a.fstSegment
  | _ => a.mutableSegment

/-- Modelled from the spec: `Size()` of an active segment is the size of the
wrapped segment. -/
def activeSegment.Size (a : activeSegment) : Int :=
  match a.segment with
  | some s => s.Size
  | none => 0

/-- Posting-id offset of the wrapped segment, standing in for Go pointer
identity when the rotator removes swapped-out segments. -/
def activeSegment.wrappedId (a : activeSegment) : Option Int :=
  (a.segment).map segmentData.segId

/-- Modelled from the spec: a bootstrap-record segment is a
`segment.Segment` that may or may not additionally be a
`segment.MutableSegment` (the Go type assertion `seg.(segment.MutableSegment)`). -/
structure bootSegment where
  isMutable : Bool
  data : segmentData
deriving DecidableEq, Repr

/-- Modelled from the spec: `result.ShardTimeRanges` is a set of
shard-time ranges.  It is modelled at unit-interval granularity: the atom
`(shard, t)` covers the half-open range `[t, t+1)` of shard `shard`;
`AddRanges` is union, `Subtract` is difference, `IsEmpty` tests emptiness,
and `MinMax` returns the smallest start and largest end over all ranges. -/
abbrev ShardTimeRanges := List (Nat × Int)

/-- Union of two shard-time range sets (`AddRanges`). -/
def ShardTimeRanges.AddRanges (r s : ShardTimeRanges) : ShardTimeRanges := r ++ s

/-- Difference of two shard-time range sets (`Subtract`). -/
def ShardTimeRanges.Subtract (r s : ShardTimeRanges) : ShardTimeRanges :=
  r.filter (fun p => decide (p ∉ s))

/-- Emptiness test (`IsEmpty`). -/
def ShardTimeRanges.IsEmpty (r : ShardTimeRanges) : Bool := r.isEmpty

/-- Smallest range start and largest range end (`MinMax`); `none` when the
set holds no ranges. -/
def ShardTimeRanges.MinMax (r : ShardTimeRanges) : Option (Int × Int) :=
  match r with
  | [] => none
  | a :: rest =>
    some (rest.foldl (fun acc p => (min acc.1 p.2, max acc.2 (p.2 + 1))) (a.2, a.2 + 1))

/-- A bootstrap record: segments together with the shard time ranges they
completely cover (`blockShardRangesSegments` in the source). -/
structure blockShardRangesSegments where
  shardTimeRanges : ShardTimeRanges
  segments : List bootSegment
deriving DecidableEq, Repr

/-- The payload of one `AddResults` call (`result.IndexBlock`): fulfilled
shard time ranges plus the accompanying segments. -/
structure IndexBlockResult where
  fulfilled : ShardTimeRanges
  segments : List bootSegment
deriving DecidableEq, Repr

/-- Per-entry outcome recorded in a write batch.  Modelled from the spec:
entries are unmarked (pending) until the block marks them Success or Error;
entries already marked by an earlier attempt are left alone. -/
inductive writeBatchEntryResult
  | pending
  | success
  | failure (err : BlockError)
deriving DecidableEq, Repr

/-- One entry of a write batch: a document plus its outcome mark. -/
structure writeBatchEntry where
  doc : Nat
  result : writeBatchEntryResult
deriving DecidableEq, Repr

/-- A write batch is an ordered sequence of entries (`WriteBatch`). -/
abbrev WriteBatch := List writeBatchEntry

/-- Batch length (`Len()`). -/
def WriteBatch.Len (wb : WriteBatch) : Nat := wb.length

/-- Documents of the still-unmarked entries (`PendingDocs()`). -/
def WriteBatch.PendingDocs (wb : WriteBatch) : List Nat :=
  (wb.filter (fun e => e.result == writeBatchEntryResult.pending)).map writeBatchEntry.doc

/-- Mark every unmarked entry with the given error
(`MarkUnmarkedEntriesError`). -/
def WriteBatch.MarkUnmarkedEntriesError (wb : WriteBatch) (err : BlockError) : WriteBatch :=
  wb.map (fun e =>
    if e.result = writeBatchEntryResult.pending then
      { e with result := writeBatchEntryResult.failure err }
    else e)

/-- Mark every unmarked entry Success (`MarkUnmarkedEntriesSuccess`). -/
def WriteBatch.MarkUnmarkedEntriesSuccess (wb : WriteBatch) : WriteBatch :=
  wb.map (fun e =>
    if e.result = writeBatchEntryResult.pending then
      { e with result := writeBatchEntryResult.success }
    else e)

/-- Mark the entry at one index with an error if it is unmarked
(`MarkUnmarkedEntryError`); the per-document error value from the segment
library is opaque and stands as `memInsertError`. -/
def WriteBatch.MarkUnmarkedEntryError (wb : WriteBatch) (i : Nat) : WriteBatch :=
  match wb[i]? with
  | some e =>
    if e.result = writeBatchEntryResult.pending then
      wb.set i { e with result := writeBatchEntryResult.failure BlockError.memInsertError }
    else wb
  | none => wb

/-- Result counters returned by `WriteBatch` on the block. -/
structure WriteBatchResult where
  NumSuccess : Int
  NumError : Int
deriving DecidableEq, Repr

/-- Query options; `Limit` short-circuits result iteration when positive. -/
structure QueryOptions where
  Limit : Int
deriving DecidableEq, Repr

/-- Modelled from the spec: the outcome of the m3ninx `InsertBatch` call on
the mutable segment — success, a `BatchPartialError` carrying per-index
errors, or any other (unexpected) error. -/
inductive insertOutcome
  | ok
  | partialErrorOutcome (errIdxs : List Nat)
  | otherError
deriving DecidableEq, Repr

/-- The block (`block` struct): lifecycle state, bootstrap records, active
segments, posting-id counter, the single-slot rotation channel (modelled as
a Bool: `true` = a signal is pending), and the time window. -/
structure Block where
  state : blockState
  shardRangesSegments : List blockShardRangesSegments
  activeSegments : List activeSegment
  segmentID : Int
  rotateCh : Bool
  startTime : Int
  endTime : Int
deriving DecidableEq, Repr

/-- Rotation-size threshold for the mutable active segment
(`defaultMutableSegmentRotationSize = 1 << 16`). -/
def defaultMutableSegmentRotationSize : Int := 65536

/-- Rotator merge-size ceiling (`defaultMutableSegmentRotationMergeSize = 1 << 20`). -/
def defaultMutableSegmentRotationMergeSize : Int := 1048576

/-- Age threshold for the mutable active segment, in nanoseconds
(`defaultMutableSegmentRotationAge = 30 * time.Second`). -/
def defaultMutableSegmentRotationAge : Int := 30000000000

/-- The state-dependent write error (`writeBatchErrorInvalidState`). -/
def Block.writeBatchErrorInvalidState (st : blockState) : BlockError :=
  match st with
  | blockStateClosed => BlockError.errUnableToWriteBlockClosed
  | blockStateSealed => BlockError.errUnableToWriteBlockSealed
  | blockStateOpen => BlockError.errUnableToWriteBlockUnknownState blockStateOpen

/-- First active segment marked mutable (`mutableActiveSegmentWithRLock`);
`none` if no such segment exists. -/
def findFirstMutable (l : List activeSegment) : Option activeSegment :=
  l.find? (fun a => a.state == mutableActiveSegmentState)

/-- Apply `f` to the first active segment marked mutable, standing in for
the Go code's in-place mutation through the pointer returned by
`mutableActiveSegmentWithRLock`. -/
def updateFirstMutable (f : activeSegment → activeSegment) :
    List activeSegment → List activeSegment
  | [] => []
  | a :: rest =>
    if a.state = mutableActiveSegmentState then f a :: rest
    else a :: updateFirstMutable f rest

/-- Mint a posting-id offset, allocate a fresh mutable segment and put it at
the front of `activeSegments` (`addActiveSegmentWithLock`); `now` is the
value of the injected clock. -/
def Block.addActiveSegmentWithLock (b : Block) (now : Int) : Block :=
  let pid := b.segmentID + 1
  { b with
    segmentID := pid
    activeSegments :=
      { creationTime := now
        state := mutableActiveSegmentState
        mutableSegment := some { segId := pid, docs := [], isSealed := false, isClosed := false }
        fstSegment := none } :: b.activeSegments }

/-- Non-blocking send on the single-slot rotation channel
(`triggerRotations`): if a signal is already pending the new one coalesces
into it, so the channel is full afterwards either way. -/
def Block.triggerRotations (b : Block) : Block :=
  { b with rotateCh := true }

/-- Create a new Open block with one fresh mutable active segment
(`NewBlock`; the two background tasks it spawns are modelled as the explicit
`rotateMutableActiveSegments` step). -/
def NewBlock (startTime blockSize now : Int) : Block :=
  let b : Block :=
    { state := blockStateOpen
      shardRangesSegments := []
      activeSegments := []
      segmentID := 0
      rotateCh := false
      startTime := startTime
      endTime := startTime + blockSize }
  b.addActiveSegmentWithLock now

/-- Modelled from the spec: the documents the m3ninx `InsertBatch` call adds
to the mutable segment — all pending documents on success, the pending
documents at non-failed indices on a partial error, none on an unexpected
error. -/
def insertedDocs (inserts : WriteBatch) (outcome : insertOutcome) : List Nat :=
  match outcome with
  | insertOutcome.ok => inserts.PendingDocs
  | insertOutcome.partialErrorOutcome errIdxs =>
    ((List.range inserts.length).filterMap (fun i =>
      match inserts[i]? with
      | some e =>
        if e.result = writeBatchEntryResult.pending ∧ i ∉ errIdxs then some e.doc else none
      | none => none))
  | insertOutcome.otherError => []

/-- Entry marking and result counters for the three `InsertBatch` outcomes
(the success, `BatchPartialError`, and unknown-error arms of the source's
`WriteBatch`). -/
def markResults (inserts : WriteBatch) (outcome : insertOutcome) :
    WriteBatch × WriteBatchResult × Option BlockError :=
  match outcome with
  | insertOutcome.ok =>
    (inserts.MarkUnmarkedEntriesSuccess,
     { NumSuccess := (inserts.Len : Int), NumError := 0 }, none)
  | insertOutcome.partialErrorOutcome errIdxs =>
    let afterErrs := errIdxs.foldl WriteBatch.MarkUnmarkedEntryError inserts
    (afterErrs.MarkUnmarkedEntriesSuccess,
     { NumSuccess := (inserts.Len : Int) - (errIdxs.length : Int)
       NumError := (errIdxs.length : Int) },
     some (BlockError.batchPartialError errIdxs))
  | insertOutcome.otherError =>
    (inserts.MarkUnmarkedEntriesError BlockError.errUnknownWriteBatchInvariant,
     { NumSuccess := 0, NumError := (inserts.Len : Int) },
     some BlockError.errUnknownWriteBatchInvariant)

/-- Seal the first mutable active segment in place (the deferred
`mutableSeg.Seal()` of the write path's rotation trigger). -/
def Block.sealFirstMutable (b : Block) : Block :=
  { b with activeSegments :=
      (updateFirstMutable
        (fun a => { a with mutableSegment := a.mutableSegment.map segmentData.Seal })
        b.activeSegments) }

/-- The write path (`WriteBatch` on the block).  `outcome` is the result of
the m3ninx `InsertBatch` call and `now` the injected clock value, both
inputs of the environment.  Returns the block after the call, the batch with
its marks, the result counters, and the error.  The rotation trigger runs
deferred — after the insert, before the lock is released — so it applies on
every arm past the state and nil checks but never changes the returned
counters. -/
def Block.WriteBatch (b : Block) (inserts : WriteBatch) (outcome : insertOutcome)
    (now : Int) : Block × WriteBatch × WriteBatchResult × Option BlockError :=
  if b.state ≠ blockStateOpen then
    let err := Block.writeBatchErrorInvalidState b.state
    (b, inserts.MarkUnmarkedEntriesError err,
     { NumSuccess := 0, NumError := (inserts.Len : Int) }, some err)
  else
    match findFirstMutable b.activeSegments with
    | none =>
      let err := BlockError.errOpenBlockHasNilActiveSegment b.state
      (b, inserts.MarkUnmarkedEntriesError err,
       { NumSuccess := 0, NumError := (inserts.Len : Int) }, some err)
    | some mutableActiveSeg =>
      match mutableActiveSeg.mutableSegment with
      | none =>
        let err := BlockError.errOpenBlockHasNilActiveSegment b.state
        (b, inserts.MarkUnmarkedEntriesError err,
         { NumSuccess := 0, NumError := (inserts.Len : Int) }, some err)
      | some mutableSeg =>
        let newSegData := { mutableSeg with docs := mutableSeg.docs ++ insertedDocs inserts outcome }
        let b1 := { b with activeSegments :=
          (updateFirstMutable (fun a => { a with mutableSegment := some newSegData })
            b.activeSegments) }
        let marked := markResults inserts outcome
        let b2 :=
          if newSegData.Size > defaultMutableSegmentRotationSize ∨
              now - mutableActiveSeg.creationTime > defaultMutableSegmentRotationAge then
            ((b1.sealFirstMutable).addActiveSegmentWithLock now).triggerRotations
          else b1
        (b2, marked.1, marked.2.1, marked.2.2)

/-- Reader acquisition for the executor (`executorWithRLock`).  A reader is
identified with the segment it reads (the spec models `Reader()` as a
concurrent read handle onto the segment).  The source loops over the active
segments skipping every one whose state is not FST, then over every segment
of every bootstrap record. -/
def Block.executorWithRLock (b : Block) : List segmentData :=
  ((b.activeSegments.filter (fun s => s.state == fstActiveSegmentState)).filterMap
    activeSegment.segment)
  ++ (b.shardRangesSegments.flatMap (fun g => g.segments.map bootSegment.data))

/-- Modelled from the spec: the documents the executor's iterator yields —
those of the acquired readers that match the search query. -/
def candidateDocs (b : Block) (pred : Nat → Bool) : List Nat :=
  ((b.executorWithRLock).flatMap segmentData.docs).filter pred

/-- The result-iteration loop of `Query`: consume documents, breaking early
when a positive limit has been reached by the running size; returns the
final results and the `brokeEarly` flag. -/
def queryLoop (limit : Int) : List Nat → List Nat → List Nat × Bool
  | [], results => (results, false)
  | d :: rest, results =>
    if 0 < limit ∧ limit ≤ (results.length : Int) then (results, true)
    else queryLoop limit rest (results ++ [d])

/-- The query path (`Query`): fails when Closed, otherwise builds the
executor, iterates matching documents into the caller-supplied results sink
under the limit, and returns `exhaustive = ¬brokeEarly` with the results. -/
def Block.Query (b : Block) (pred : Nat → Bool) (opts : QueryOptions)
    (results : List Nat) : Option (Bool × List Nat) :=
  if b.state = blockStateClosed then none
  else
    let looped := queryLoop opts.Limit (candidateDocs b pred) results
    some (!looped.2, looped.1)

/-- The body of `AddResults` past the closed-state and fulfilled-range
checks: incoming mutable segments are sealed when the block is already
Sealed (an already-sealed incoming mutable segment is an invariant violation
collected into the returned error); the new record replaces all existing
records — closing their segments — exactly when subtracting its fulfilled
ranges from the union of the existing records' ranges leaves the empty set,
and is appended otherwise. -/
def Block.addResultsPastRangeCheck (b : Block) (results : IndexBlockResult) :
    Block × List bootSegment × Option BlockError :=
  let isSealed := b.state = blockStateSealed
  let sealInvariantHit := isSealed ∧
    ∃ s ∈ results.segments, s.isMutable = true ∧ s.data.isSealed = true
  let segs :=
    if isSealed then
      results.segments.map (fun s =>
        if s.isMutable then { s with data := s.data.Seal } else s)
    else results.segments
  let multiErr : Option BlockError :=
    if sealInvariantHit then some BlockError.errBootstrappingSealedMutableSegmentInvariant
    else none
  let entry : blockShardRangesSegments :=
    { shardTimeRanges := results.fulfilled, segments := segs }
  let currFulfilled :=
    b.shardRangesSegments.foldl
      (fun acc existing => ShardTimeRanges.AddRanges acc existing.shardTimeRanges) []
  let unfulfilledBySegments := ShardTimeRanges.Subtract currFulfilled results.fulfilled
  if ShardTimeRanges.IsEmpty unfulfilledBySegments = false then
    ({ b with shardRangesSegments := b.shardRangesSegments ++ [entry] }, [], multiErr)
  else
    ({ b with shardRangesSegments := [entry] },
     b.shardRangesSegments.flatMap blockShardRangesSegments.segments, multiErr)

/-- The bootstrap merge (`AddResults`).  Returns the block after the call,
the list of segments the call closed, and the error.  Rejected when Closed;
rejected with a range error when the fulfilled ranges reach outside
`[startTime, endTime)` (`MinMax` of an empty range set is modelled as
passing the check, the empty set being inside every window); otherwise
delegates to `addResultsPastRangeCheck`. -/
def Block.AddResults (b : Block) (results : IndexBlockResult) :
    Block × List bootSegment × Option BlockError :=
  if b.state = blockStateClosed then
    (b, [], some BlockError.errUnableToBootstrapBlockClosed)
  else
    match ShardTimeRanges.MinMax results.fulfilled with
    | some (mn, mx) =>
      if mn < b.startTime ∨ mx > b.endTime then
        (b, [], some BlockError.errFulfilledRangeOutsideBlockRange)
      else Block.addResultsPastRangeCheck b results
    | none => Block.addResultsPastRangeCheck b results

/-- The seal path (`Seal`): an illegal-state error unless Open; otherwise
the state becomes Sealed, every mutable-state active segment is sealed in
place, and every mutable segment inside every bootstrap record is sealed in
place.  The returned error aggregates seal failures from the segment
library (sealing an already-sealed mutable segment errors). -/
def Block.Seal (b : Block) : Block × Option BlockError :=
  if b.state ≠ blockStateOpen then
    (b, some (BlockError.errUnableToSealBlockIllegalState b.state))
  else
    let sealErrHit :=
      (∃ a ∈ b.activeSegments, a.state = mutableActiveSegmentState ∧
        ∃ s, a.mutableSegment = some s ∧ s.isSealed = true) ∨
      (∃ g ∈ b.shardRangesSegments, ∃ s ∈ g.segments,
        s.isMutable = true ∧ s.data.isSealed = true)
    ({ b with
        state := blockStateSealed
        activeSegments := b.activeSegments.map (fun a =>
          if a.state = mutableActiveSegmentState then
            { a with mutableSegment := a.mutableSegment.map segmentData.Seal }
          else a)
        shardRangesSegments := b.shardRangesSegments.map (fun g =>
          { g with segments := g.segments.map (fun s =>
              if s.isMutable then { s with data := s.data.Seal } else s) }) },
     if sealErrHit then some BlockError.errSegmentAlreadySealed else none)

/-- Eviction pre-check (`NeedsMutableSegmentsEvicted`): true when some
active segment — of any state — has a positive size, or failing that when
some bootstrap-record segment is mutable with a positive size.  The function
reads under the read lock only and checks no block state. -/
def Block.NeedsMutableSegmentsEvicted (b : Block) : Bool :=
  let anyActive := b.activeSegments.any (fun seg => seg.Size > 0)
  if anyActive then true
  else
    b.shardRangesSegments.any (fun g =>
      g.segments.any (fun s => s.isMutable && s.data.Size > 0))

/-- The selection walk of the rotator (`rotateMutableActiveSegments`, first
locked section): over the size-sorted active segments, stop at the first
whose size would push the accumulated size to the merge ceiling; select
sealed mutable segments — marking them Rotating in place — and FST segments,
accumulating their sizes.  Returns the updated segment list, the selected
wrapped segments (`segmentsToRotate`), and the counts of selected mutable
and FST segments.  A mutable-state segment with no wrapped segment is
skipped (the source would fault there). -/
def selectForRotation (mergeSize : Int) :
    Int → List activeSegment → List activeSegment × List segmentData × Nat × Nat
  | _, [] => ([], [], 0, 0)
  | accumulatedSize, seg :: rest =>
    if mergeSize ≤ accumulatedSize + seg.Size then (seg :: rest, [], 0, 0)
    else
      match seg.state, seg.mutableSegment, seg.fstSegment with
      | mutableActiveSegmentState, some ms, _ =>
        if ms.isSealed then
          let next := selectForRotation mergeSize (accumulatedSize + seg.Size) rest
          ({ seg with state := rotatingActiveSegmentState } :: next.1,
           ms :: next.2.1, next.2.2.1 + 1, next.2.2.2)
        else
          let next := selectForRotation mergeSize accumulatedSize rest
          (seg :: next.1, next.2.1, next.2.2.1, next.2.2.2)
      | fstActiveSegmentState, _, some fs =>
        let next := selectForRotation mergeSize (accumulatedSize + seg.Size) rest
        (seg :: next.1, fs :: next.2.1, next.2.2.1, next.2.2.2 + 1)
      | _, _, _ =>
        let next := selectForRotation mergeSize accumulatedSize rest
        (seg :: next.1, next.2.1, next.2.2.1, next.2.2.2)

/-- One pass of the background rotator (`rotateMutableActiveSegments`).
`now` is the injected clock value; `mergeOk`, `sealOk` and `fstOk` are the
outcomes of the merge, seal and FST-transform calls into the segment
libraries (environment inputs; on any failure the source logs and abandons
the pass, leaving the selection's Rotating marks in place).  Go's
`sort.Slice` ascending by size is modelled with an insertion sort; removal
of the swapped-out segments matches on the wrapped segment's posting-id
offset in place of Go pointer identity. -/
def Block.rotateMutableActiveSegments (b : Block) (now : Int)
    (mergeOk sealOk fstOk : Bool) : Block :=
  let sorted := b.activeSegments.insertionSort (fun x y => x.Size < y.Size)
  let sel := selectForRotation defaultMutableSegmentRotationMergeSize 0 sorted
  let b1 := { b with activeSegments := sel.1 }
  let segmentsToRotate := sel.2.1
  let numAccumulatedMutable := sel.2.2.1
  if segmentsToRotate.length = 0 ∨
      (segmentsToRotate.length = 1 ∧ numAccumulatedMutable = 0) then b1
  else
    let pid := b1.segmentID + 1
    let b2 := { b1 with segmentID := pid }
    if mergeOk = false ∨ sealOk = false ∨ fstOk = false then b2
    else
      let fstSeg : segmentData :=
        ⟨pid, segmentsToRotate.flatMap segmentData.docs, true, false⟩
      let rotatedIds := segmentsToRotate.map segmentData.segId
      let newActiveSegment : activeSegment :=
        ⟨now, fstActiveSegmentState, none, some fstSeg⟩
      { b2 with activeSegments :=
          ((b2.activeSegments.filter (fun s =>
            match s.wrappedId with
            | some i => decide (i ∉ rotatedIds)
            | none => true)) ++ [newActiveSegment]) }

/-- A write batch has at least one unsealed mutable active segment to write
into; the predicate the open-state invariant preserves. -/
def hasUnsealedMutable (l : List activeSegment) : Bool :=
  l.any (fun a => a.state == mutableActiveSegmentState &&
    (match a.mutableSegment with
     | some s => !s.isSealed
     | none => false))

/-- An Open block holding one never-rotated mutable active segment that
contains document 7. -/
def blkMut7 : Block :=
  ⟨blockStateOpen, [],
   [⟨0, mutableActiveSegmentState, some ⟨1, [7], false, false⟩, none⟩],
   1, false, 0, 3600000000000⟩

/-- A Sealed block used as concrete input for the write-path error claims. -/
def blkSealedW : Block :=
  ⟨blockStateSealed, [],
   [⟨0, mutableActiveSegmentState, some ⟨1, [], true, false⟩, none⟩],
   1, false, 0, 3600000000000⟩

/-- An Open block holding one bootstrap record with a single sealed FST-like
segment carrying documents 1, 2 and 3. -/
def blkBoot : Block :=
  ⟨blockStateOpen, [⟨[(0, 5)], [⟨false, ⟨2, [1, 2, 3], true, false⟩⟩]⟩],
   [], 2, false, 0, 10⟩

/-- An Open block holding one unsealed and one sealed mutable active
segment, as the write path leaves them after a rotation trigger. -/
def blkTwoMut : Block :=
  ⟨blockStateOpen, [],
   [⟨0, mutableActiveSegmentState, some ⟨1, [], false, false⟩, none⟩,
    ⟨0, mutableActiveSegmentState, some ⟨2, [3], true, false⟩, none⟩],
   2, false, 0, 3600000000000⟩

/-- `NeedsMutableSegmentsEvicted` as a single boolean expression: the
early-return flag structure collapses to a disjunction. -/
theorem needsMutableSegmentsEvicted_eq (b : Block) :
    b.NeedsMutableSegmentsEvicted =
      (b.activeSegments.any (fun seg => seg.Size > 0) ||
        b.shardRangesSegments.any (fun g =>
          g.segments.any (fun s => s.isMutable && s.data.Size > 0))) := by
  unfold Block.NeedsMutableSegmentsEvicted
  by_cases h : b.activeSegments.any (fun seg => seg.Size > 0) = true <;> simp [h]

/-- C10: `NeedsMutableSegmentsEvicted` returns true iff some active segment
— of any state, FST included — has positive size, or some bootstrap-record
segment is mutable with positive size; its value is independent of the
block state (so it is callable in every state), and on a block whose
collections are empty — as after `Close` — it returns false.  Being a pure
function of the block it modifies nothing. -/
theorem c10_needs_mutable_segments_evicted (b : Block) :
    (b.NeedsMutableSegmentsEvicted = true ↔
      ((∃ seg ∈ b.activeSegments, seg.Size > 0) ∨
        (∃ g ∈ b.shardRangesSegments, ∃ s ∈ g.segments,
          s.isMutable = true ∧ s.data.Size > 0)))
    ∧ (∀ st : blockState,
        Block.NeedsMutableSegmentsEvicted { b with state := st } =
          b.NeedsMutableSegmentsEvicted)
    ∧ (b.activeSegments = [] → b.shardRangesSegments = [] →
        b.NeedsMutableSegmentsEvicted = false) := by
  refine ⟨?_, ?_, ?_⟩
  · simp [needsMutableSegmentsEvicted_eq, List.any_eq_true]
  · intro st
    simp [needsMutableSegmentsEvicted_eq]
  · intro h1 h2
    simp [needsMutableSegmentsEvicted_eq, h1, h2]

/-- Witness for C10 at a concrete closed block with empty collections. -/
theorem c10_witness :
    Block.NeedsMutableSegmentsEvicted ⟨blockStateClosed, [], [], 0, false, 0, 0⟩ = false :=
  (c10_needs_mutable_segments_evicted ⟨blockStateClosed, [], [], 0, false, 0, 0⟩).2.2 rfl rfl

/-- C5: a `WriteBatch` call on a block that is not Open leaves the block
unchanged, marks every unmarked entry with the invalid-state error matching
the state — the sealed error when Sealed, the closed error when Closed —
marks no entry Success, and returns `NumError` equal to the batch length
together with that error. -/
theorem c5_write_batch_not_open (b : Block) (inserts : WriteBatch)
    (outcome : insertOutcome) (now : Int) (h : b.state ≠ blockStateOpen) :
    (b.WriteBatch inserts outcome now =
      (b, inserts.MarkUnmarkedEntriesError (Block.writeBatchErrorInvalidState b.state),
       ⟨0, (inserts.length : Int)⟩,
       some (Block.writeBatchErrorInvalidState b.state)))
    ∧ Block.writeBatchErrorInvalidState blockStateClosed =
        BlockError.errUnableToWriteBlockClosed
    ∧ Block.writeBatchErrorInvalidState blockStateSealed =
        BlockError.errUnableToWriteBlockSealed
    ∧ (∀ (i : Nat) (e : writeBatchEntry), inserts[i]? = some e →
        e.result = writeBatchEntryResult.pending →
        ((b.WriteBatch inserts outcome now).2.1)[i]? =
          some { e with result := (writeBatchEntryResult.failure
            (Block.writeBatchErrorInvalidState b.state)) })
    ∧ (∀ e ∈ (b.WriteBatch inserts outcome now).2.1,
        e.result = writeBatchEntryResult.success →
          ∃ e0 ∈ inserts, e0.result = writeBatchEntryResult.success ∧ e = e0) := by
  have hstep : b.WriteBatch inserts outcome now =
      (b, inserts.MarkUnmarkedEntriesError (Block.writeBatchErrorInvalidState b.state),
       ⟨0, (inserts.length : Int)⟩,
       some (Block.writeBatchErrorInvalidState b.state)) := by
    unfold Block.WriteBatch
    simp [h, WriteBatch.Len]
  refine ⟨hstep, rfl, rfl, ?_, ?_⟩
  · intro i e hi hp
    rw [hstep]
    simp only [WriteBatch.MarkUnmarkedEntriesError, List.getElem?_map, hi, Option.map_some',
      hp, if_pos]
  · intro e he hs
    rw [hstep] at he
    simp only [WriteBatch.MarkUnmarkedEntriesError, List.mem_map] at he
    obtain ⟨e0, he0, heq⟩ := he
    by_cases hp : e0.result = writeBatchEntryResult.pending
    · rw [if_pos hp] at heq
      rw [← heq] at hs
      simp at hs
    · rw [if_neg hp] at heq
      exact ⟨e0, he0, heq ▸ hs, heq.symm⟩

/-- Witness for C5 at a concrete Sealed block. -/
theorem c5_witness :
    (blkSealedW.WriteBatch [⟨3, writeBatchEntryResult.pending⟩] insertOutcome.ok 0).2.2.2 =
      some BlockError.errUnableToWriteBlockSealed := by
  have h := c5_write_batch_not_open blkSealedW [⟨3, writeBatchEntryResult.pending⟩]
    insertOutcome.ok 0 (by decide)
  rw [h.1]
  decide

/-- `Seal` on a block that is not Open: error, block untouched. -/
theorem seal_not_open (b : Block) (h : b.state ≠ blockStateOpen) :
    b.Seal = (b, some (BlockError.errUnableToSealBlockIllegalState b.state)) := by
  unfold Block.Seal
  simp [h]

/-- `Seal` on an Open block: the resulting block fieldwise. -/
theorem seal_open_fields (b : Block) (h : b.state = blockStateOpen) :
    b.Seal.1.state = blockStateSealed
    ∧ b.Seal.1.activeSegments = b.activeSegments.map (fun a =>
        if a.state = mutableActiveSegmentState then
          { a with mutableSegment := a.mutableSegment.map segmentData.Seal }
        else a)
    ∧ b.Seal.1.shardRangesSegments = b.shardRangesSegments.map (fun g =>
        { g with segments := (g.segments.map (fun s =>
            if s.isMutable then { s with data := s.data.Seal } else s)) }) := by
  unfold Block.Seal
  simp [h]

/-- C6: `Seal` returns the illegal-state error and leaves the block
unchanged whenever the block is not Open — in particular a second `Seal`
after a successful one — and on an Open block it moves the state to Sealed,
seals every active segment in the Mutable state, and seals every mutable
segment inside every bootstrap record. -/
theorem c6_seal (b : Block) :
    (b.state ≠ blockStateOpen →
      b.Seal = (b, some (BlockError.errUnableToSealBlockIllegalState b.state)))
    ∧ (b.state = blockStateOpen →
        (b.Seal.1.state = blockStateSealed
         ∧ (b.Seal.1).Seal =
             (b.Seal.1, some (BlockError.errUnableToSealBlockIllegalState blockStateSealed))
         ∧ (∀ a ∈ b.Seal.1.activeSegments, a.state = mutableActiveSegmentState →
             ∀ s, a.mutableSegment = some s → s.isSealed = true)
         ∧ (∀ g ∈ b.Seal.1.shardRangesSegments, ∀ s ∈ g.segments,
             s.isMutable = true → s.data.isSealed = true))) := by
  refine ⟨seal_not_open b, ?_⟩
  intro h
  obtain ⟨hst, hact, hrec⟩ := seal_open_fields b h
  refine ⟨hst, ?_, ?_, ?_⟩
  · have h2 := seal_not_open b.Seal.1 (by rw [hst]; exact fun hc => by cases hc)
    rw [hst] at h2
    exact h2
  · intro a ha hmst s hs
    rw [hact] at ha
    simp only [List.mem_map] at ha
    obtain ⟨a0, ha0, heq⟩ := ha
    by_cases hm : a0.state = mutableActiveSegmentState
    · rw [if_pos hm] at heq
      rw [← heq] at hs
      simp only [Option.map_eq_some'] at hs
      obtain ⟨s0, hs0, hseal⟩ := hs
      rw [← hseal]
      rfl
    · rw [if_neg hm] at heq
      rw [← heq] at hmst
      exact absurd hmst hm
  · intro g hg s hs hm
    rw [hrec] at hg
    simp only [List.mem_map] at hg
    obtain ⟨g0, hg0, heq⟩ := hg
    rw [← heq] at hs
    simp only [List.mem_map] at hs
    obtain ⟨s0, hs0, hseq⟩ := hs
    by_cases hsm : s0.isMutable = true
    · rw [if_pos hsm] at hseq
      rw [← hseq]
      rfl
    · rw [if_neg hsm] at hseq
      rw [← hseq] at hm
      exact absurd hm hsm

/-- Witness for C6 at a concrete Open block: sealing moves it to Sealed. -/
theorem c6_witness :
    blkMut7.Seal.1.state = blockStateSealed :=
  ((c6_seal blkMut7).2 rfl).1

/-- C1 (refuting theorem): on an Open block whose only active segment is a
Mutable segment containing document 7, the executor acquires no readers at
all, and a match-all query with no limit returns no documents — although
the claim requires a reader from every Mutable-state active segment, and the
source's own comment announces "start with the segment that's being actively
written to".  The loop in `executorWithRLock` skips every active segment
whose state is not FST. -/
theorem c1_mutable_segment_contributes_no_reader :
    Block.executorWithRLock blkMut7 = []
    ∧ Block.Query blkMut7 (fun _ => true) ⟨0⟩ [] = some (true, [])
    ∧ (∃ a ∈ blkMut7.activeSegments, a.state = mutableActiveSegmentState ∧
        ∃ s : segmentData, a.mutableSegment = some s ∧ 7 ∈ s.docs) := by
  refine ⟨rfl, rfl, ?_⟩
  refine ⟨⟨0, mutableActiveSegmentState, some ⟨1, [7], false, false⟩, none⟩, ?_, rfl, ?_⟩
  · simp [blkMut7]
  · exact ⟨⟨1, [7], false, false⟩, rfl, by simp⟩

/-- The query iteration loop never breaks early under a non-positive limit
and consumes every document. -/
theorem queryLoop_nonpos (limit : Int) (h : limit ≤ 0) :
    ∀ (docs res : List Nat), queryLoop limit docs res = (res ++ docs, false) := by
  intro docs
  induction docs with
  | nil => intro res; simp [queryLoop]
  | cons d rest ih =>
    intro res
    have hc : ¬(0 < limit ∧ limit ≤ (res.length : Int)) := by
      rintro ⟨h1, _⟩; omega
    simp [queryLoop, hc, ih]

/-- When the loop reports it never broke early, it consumed every document. -/
theorem queryLoop_not_broke (limit : Int) :
    ∀ (docs res : List Nat), (queryLoop limit docs res).2 = false →
      (queryLoop limit docs res).1 = res ++ docs := by
  intro docs
  induction docs with
  | nil => intro res _; simp [queryLoop]
  | cons d rest ih =>
    intro res hb
    by_cases hc : 0 < limit ∧ limit ≤ (res.length : Int)
    · simp [queryLoop, hc] at hb
    · simp only [queryLoop, if_neg hc] at hb ⊢
      rw [ih (res ++ [d]) hb]
      simp

/-- Under a positive limit the loop breaks early exactly when a document is
supplied and the supplied documents push past the limit: the check
`Limit > 0 ∧ size ≥ Limit` fires before some document is consumed. -/
theorem queryLoop_broke_iff (limit : Int) (hl : 0 < limit) :
    ∀ (docs res : List Nat),
      ((queryLoop limit docs res).2 = true ↔
        (limit < (res.length : Int) + (docs.length : Int) ∧ docs ≠ [])) := by
  intro docs
  induction docs with
  | nil =>
    intro res
    simp [queryLoop]
  | cons d rest ih =>
    intro res
    by_cases hc : 0 < limit ∧ limit ≤ (res.length : Int)
    · simp only [queryLoop, if_pos hc, List.length_cons]
      have h2 := hc.2
      push_cast
      constructor
      · intro _
        exact ⟨by omega, by simp⟩
      · intro _
        trivial
    · have hlen : (res.length : Int) < limit := by
        by_contra hx
        push_neg at hx
        exact hc ⟨hl, hx⟩
      simp only [queryLoop, if_neg hc, List.length_cons]
      rw [ih (res ++ [d])]
      simp only [List.length_append, List.length_cons, List.length_nil]
      push_cast
      constructor
      · rintro ⟨h1, _⟩
        exact ⟨by omega, by simp⟩
      · rintro ⟨h1, _⟩
        refine ⟨by omega, ?_⟩
        intro hrest
        rw [hrest] at h1
        simp at h1
        omega

/-- C9: on a non-Closed block, `Query` returns `exhaustive = ¬brokeEarly`
together with the loop's results; when the loop never broke early every
matching document was consumed; under a positive limit the loop breaks
early exactly when the matching documents strictly exceed the room the
limit leaves (it stops before consuming the next document once
`size ≥ Limit`); and a query with `Limit ≤ 0` returns all matching
documents with `exhaustive = true`. -/
theorem c9_query_limit (b : Block) (pred : Nat → Bool) (limit : Int)
    (res : List Nat) (h : b.state ≠ blockStateClosed) :
    (b.Query pred ⟨limit⟩ res =
      some (!(queryLoop limit (candidateDocs b pred) res).2,
        (queryLoop limit (candidateDocs b pred) res).1))
    ∧ ((queryLoop limit (candidateDocs b pred) res).2 = false →
        (queryLoop limit (candidateDocs b pred) res).1 = res ++ candidateDocs b pred)
    ∧ (0 < limit →
        ((queryLoop limit (candidateDocs b pred) res).2 = true ↔
          (limit < (res.length : Int) + ((candidateDocs b pred).length : Int) ∧
            candidateDocs b pred ≠ [])))
    ∧ (limit ≤ 0 →
        b.Query pred ⟨limit⟩ res = some (true, res ++ candidateDocs b pred)) := by
  have hq : b.Query pred ⟨limit⟩ res =
      some (!(queryLoop limit (candidateDocs b pred) res).2,
        (queryLoop limit (candidateDocs b pred) res).1) := by
    unfold Block.Query
    simp [h]
  refine ⟨hq, queryLoop_not_broke limit (candidateDocs b pred) res, ?_, ?_⟩
  · intro hl
    exact queryLoop_broke_iff limit hl (candidateDocs b pred) res
  · intro hl
    rw [hq, queryLoop_nonpos limit hl (candidateDocs b pred) res]
    rfl

/-- Witness for C9 at a concrete block: limit 2 truncates and reports not
exhaustive, limit 0 returns everything exhaustively. -/
theorem c9_witness :
    Block.Query blkBoot (fun _ => true) ⟨2⟩ [] = some (false, [1, 2])
    ∧ Block.Query blkBoot (fun _ => true) ⟨0⟩ [] = some (true, [1, 2, 3]) := by
  constructor
  · have h := c9_query_limit blkBoot (fun _ => true) 2 [] (by decide)
    rw [h.1]
    decide
  · exact (c9_query_limit blkBoot (fun _ => true) 0 [] (by decide)).2.2.2 (by decide)

/-- Splitting the `MinMax` fold into its min component and max component. -/
theorem foldl_pair_minmax (l : List (Nat × Int)) (a b : Int) :
    l.foldl (fun acc p => (min acc.1 p.2, max acc.2 (p.2 + 1))) (a, b) =
      (l.foldl (fun m p => min m p.2) a, l.foldl (fun m p => max m (p.2 + 1)) b) := by
  induction l generalizing a b with
  | nil => rfl
  | cons q rest ih => simp only [List.foldl_cons, ih]

/-- The folded minimum drops below a bound iff the seed or some element
does. -/
theorem foldl_min_lt_iff (l : List (Nat × Int)) (a s : Int) :
    l.foldl (fun m p => min m p.2) a < s ↔ (a < s ∨ ∃ p ∈ l, p.2 < s) := by
  induction l generalizing a with
  | nil => simp
  | cons q rest ih =>
    simp only [List.foldl_cons, ih, min_lt_iff, List.mem_cons]
    constructor
    · rintro (((h | h) | ⟨p, hp, hlt⟩))
      · exact Or.inl h
      · exact Or.inr ⟨q, Or.inl rfl, h⟩
      · exact Or.inr ⟨p, Or.inr hp, hlt⟩
    · rintro (h | ⟨p, (rfl | hp), hlt⟩)
      · exact Or.inl (Or.inl h)
      · exact Or.inl (Or.inr hlt)
      · exact Or.inr ⟨p, hp, hlt⟩

/-- The folded maximum exceeds a bound iff the seed or some element-derived
end does. -/
theorem foldl_max_gt_iff (l : List (Nat × Int)) (b e : Int) :
    e < l.foldl (fun m p => max m (p.2 + 1)) b ↔ (e < b ∨ ∃ p ∈ l, e < p.2 + 1) := by
  induction l generalizing b with
  | nil => simp
  | cons q rest ih =>
    simp only [List.foldl_cons, ih, lt_max_iff, List.mem_cons]
    constructor
    · rintro (((h | h) | ⟨p, hp, hlt⟩))
      · exact Or.inl h
      · exact Or.inr ⟨q, Or.inl rfl, h⟩
      · exact Or.inr ⟨p, Or.inr hp, hlt⟩
    · rintro (h | ⟨p, (rfl | hp), hlt⟩)
      · exact Or.inl (Or.inl h)
      · exact Or.inl (Or.inr hlt)
      · exact Or.inr ⟨p, hp, hlt⟩

/-- The `MinMax`-based rejection test of `AddResults` holds exactly when
some fulfilled range reaches outside the window `[s, e)`. -/
theorem minMax_outside_iff (f : ShardTimeRanges) (s e : Int) :
    (∃ mn mx, ShardTimeRanges.MinMax f = some (mn, mx) ∧ (mn < s ∨ mx > e)) ↔
      ¬ (∀ p ∈ f, s ≤ p.2 ∧ p.2 + 1 ≤ e) := by
  match f with
  | [] =>
    simp [ShardTimeRanges.MinMax]
  | q :: rest =>
    simp only [ShardTimeRanges.MinMax, foldl_pair_minmax, Option.some.injEq]
    constructor
    · rintro ⟨mn, mx, heq, hout⟩
      rw [Prod.mk.injEq] at heq
      obtain ⟨hmn, hmx⟩ := heq
      intro hall
      rcases hout with hlt | hgt
      · rw [← hmn] at hlt
        rw [foldl_min_lt_iff] at hlt
        rcases hlt with h | ⟨p, hp, h⟩
        · exact absurd (hall q (by simp)).1 (by omega)
        · exact absurd (hall p (by simp [hp])).1 (by omega)
      · rw [← hmx] at hgt
        rw [gt_iff_lt, foldl_max_gt_iff] at hgt
        rcases hgt with h | ⟨p, hp, h⟩
        · exact absurd (hall q (by simp)).2 (by omega)
        · exact absurd (hall p (by simp [hp])).2 (by omega)
    · intro hnall
      refine ⟨_, _, rfl, ?_⟩
      push_neg at hnall
      obtain ⟨p, hp, hout⟩ := hnall
      rw [List.mem_cons] at hp
      by_cases hle : s ≤ p.2
      · have hgt : e < p.2 + 1 := by
          rcases hout hle with h
          omega
        right
        rw [gt_iff_lt, foldl_max_gt_iff]
        rcases hp with rfl | hp
        · exact Or.inl hgt
        · exact Or.inr ⟨p, hp, hgt⟩
      · left
        rw [foldl_min_lt_iff]
        push_neg at hle
        rcases hp with rfl | hp
        · exact Or.inl hle
        · exact Or.inr ⟨p, hp, hle⟩

/-- The error of `addResultsPastRangeCheck` is never the range error. -/
theorem addResultsPastRangeCheck_no_range_error (b : Block) (r : IndexBlockResult) :
    (Block.addResultsPastRangeCheck b r).2.2 ≠
      some BlockError.errFulfilledRangeOutsideBlockRange := by
  unfold Block.addResultsPastRangeCheck
  by_cases hs : ShardTimeRanges.IsEmpty
      (ShardTimeRanges.Subtract
        (b.shardRangesSegments.foldl
          (fun acc existing => ShardTimeRanges.AddRanges acc existing.shardTimeRanges) [])
        r.fulfilled) = false <;>
    by_cases hinv : (b.state = blockStateSealed ∧
        ∃ s ∈ r.segments, s.isMutable = true ∧ s.data.isSealed = true) <;>
      simp [hs, hinv]

/-- On a non-Closed block whose fulfilled ranges all lie inside the window,
`AddResults` proceeds past the range check into the merge body. -/
theorem addResults_within_window (b : Block) (r : IndexBlockResult)
    (hs : b.state ≠ blockStateClosed)
    (hw : ∀ p ∈ r.fulfilled, b.startTime ≤ p.2 ∧ p.2 + 1 ≤ b.endTime) :
    b.AddResults r = Block.addResultsPastRangeCheck b r := by
  unfold Block.AddResults
  rw [if_neg hs]
  rcases hmm : ShardTimeRanges.MinMax r.fulfilled with _ | ⟨mn, mx⟩
  · rfl
  · dsimp only
    rw [if_neg]
    intro hout
    exact (minMax_outside_iff r.fulfilled b.startTime b.endTime).mp
      ⟨mn, mx, hmm, hout⟩ hw

/-- C7: on a non-Closed block, `AddResults` fails with the range-mismatch
error and leaves the block — its bootstrap records included — untouched
exactly for records whose fulfilled ranges are not all inside
`[startTime, endTime)`; a record whose fulfilled ranges lie inside the
window never draws the range error. -/
theorem c7_add_results_range_check (b : Block) (r : IndexBlockResult)
    (hs : b.state ≠ blockStateClosed) :
    ((¬ ∀ p ∈ r.fulfilled, b.startTime ≤ p.2 ∧ p.2 + 1 ≤ b.endTime) →
      b.AddResults r = (b, [], some BlockError.errFulfilledRangeOutsideBlockRange))
    ∧ ((∀ p ∈ r.fulfilled, b.startTime ≤ p.2 ∧ p.2 + 1 ≤ b.endTime) →
      (b.AddResults r).2.2 ≠ some BlockError.errFulfilledRangeOutsideBlockRange) := by
  constructor
  · intro hnall
    obtain ⟨mn, mx, hmm, hout⟩ :=
      (minMax_outside_iff r.fulfilled b.startTime b.endTime).mpr hnall
    unfold Block.AddResults
    rw [if_neg hs, hmm]
    dsimp only
    rw [if_pos hout]
  · intro hw
    rw [addResults_within_window b r hs hw]
    exact addResultsPastRangeCheck_no_range_error b r

/-- Witness for C7: a record reaching past the window end is rejected and
the block is unchanged. -/
theorem c7_witness :
    Block.AddResults blkBoot ⟨[(0, 12)], []⟩ =
      (blkBoot, [], some BlockError.errFulfilledRangeOutsideBlockRange) :=
  (c7_add_results_range_check blkBoot ⟨[(0, 12)], []⟩ (by decide)).1 (by
    intro hall
    have := (hall (0, 12) (by simp)).2
    have hend : blkBoot.endTime = 10 := rfl
    omega)

/-- C3: on an `AddResults` call that passes the closed-state and range
checks, if subtracting the new record's fulfilled ranges from the union of
the existing records' ranges leaves the empty set then the call replaces
all records with the new one — the block afterwards holds exactly that one
record — and closes every segment of every replaced record; otherwise the
call appends the new record after the untouched existing ones and closes
nothing.  (When the block is Sealed the new record carries its mutable
segments sealed.) -/
theorem c3_add_results_replace_or_append (b : Block) (r : IndexBlockResult)
    (hs : b.state ≠ blockStateClosed)
    (hw : ∀ p ∈ r.fulfilled, b.startTime ≤ p.2 ∧ p.2 + 1 ≤ b.endTime) :
    (ShardTimeRanges.IsEmpty (ShardTimeRanges.Subtract
        (b.shardRangesSegments.foldl
          (fun acc e => ShardTimeRanges.AddRanges acc e.shardTimeRanges) [])
        r.fulfilled) = true →
      ((b.AddResults r).1.shardRangesSegments =
        [⟨r.fulfilled, (if b.state = blockStateSealed then
            r.segments.map (fun s => if s.isMutable then { s with data := s.data.Seal } else s)
          else r.segments)⟩]
       ∧ (b.AddResults r).2.1 =
          b.shardRangesSegments.flatMap blockShardRangesSegments.segments))
    ∧ (ShardTimeRanges.IsEmpty (ShardTimeRanges.Subtract
        (b.shardRangesSegments.foldl
          (fun acc e => ShardTimeRanges.AddRanges acc e.shardTimeRanges) [])
        r.fulfilled) = false →
      ((b.AddResults r).1.shardRangesSegments =
        b.shardRangesSegments ++
          [⟨r.fulfilled, (if b.state = blockStateSealed then
              r.segments.map (fun s => if s.isMutable then { s with data := s.data.Seal } else s)
            else r.segments)⟩]
       ∧ (b.AddResults r).2.1 = [])) := by
  rw [addResults_within_window b r hs hw]
  constructor
  · intro hempty
    unfold Block.addResultsPastRangeCheck
    rw [if_neg (by rw [hempty]; simp)]
    constructor <;> rfl
  · intro hnotempty
    unfold Block.addResultsPastRangeCheck
    rw [if_pos hnotempty]
    constructor <;> rfl

/-- Witness for C3: a second record whose single-shard coverage contains the
first record's leaves exactly one record and closes the first record's
segment; a non-covering record is appended. -/
theorem c3_witness :
    (Block.AddResults blkBoot ⟨[(0, 5), (0, 6)], [⟨false, ⟨3, [9], true, false⟩⟩]⟩).1.shardRangesSegments =
      [⟨[(0, 5), (0, 6)], [⟨false, ⟨3, [9], true, false⟩⟩]⟩]
    ∧ (Block.AddResults blkBoot ⟨[(0, 5), (0, 6)], [⟨false, ⟨3, [9], true, false⟩⟩]⟩).2.1 =
      [⟨false, ⟨2, [1, 2, 3], true, false⟩⟩]
    ∧ (Block.AddResults blkBoot ⟨[(0, 6)], [⟨false, ⟨4, [], true, false⟩⟩]⟩).1.shardRangesSegments =
      blkBoot.shardRangesSegments ++ [⟨[(0, 6)], [⟨false, ⟨4, [], true, false⟩⟩]⟩] := by
  have h1 := c3_add_results_replace_or_append blkBoot
    ⟨[(0, 5), (0, 6)], [⟨false, ⟨3, [9], true, false⟩⟩]⟩ (by decide) (by decide)
  have h2 := c3_add_results_replace_or_append blkBoot
    ⟨[(0, 6)], [⟨false, ⟨4, [], true, false⟩⟩]⟩ (by decide) (by decide)
  obtain ⟨ha, hb⟩ := h1.1 (by decide)
  obtain ⟨hc, _⟩ := h2.2 (by decide)
  exact ⟨by rw [ha]; decide, by rw [hb]; decide, by rw [hc]; decide⟩

/-- Element view of marking one index: only a pending entry at that index
changes, into the failure mark. -/
theorem markEntry_getElem (wb : WriteBatch) (i j : Nat) :
    (wb.MarkUnmarkedEntryError i)[j]? =
      if j = i then
        (match wb[j]? with
         | some e => some (if e.result = writeBatchEntryResult.pending then
             { e with result := (writeBatchEntryResult.failure BlockError.memInsertError) }
           else e)
         | none => none)
      else wb[j]? := by
  unfold WriteBatch.MarkUnmarkedEntryError
  rcases hi : wb[i]? with _ | e
  · by_cases hj : j = i
    · subst hj
      simp [hi]
    · simp [hj]
  · dsimp only
    by_cases hp : e.result = writeBatchEntryResult.pending
    · rw [if_pos hp]
      by_cases hj : j = i
      · subst hj
        have hlt : j < wb.length := by
          by_contra hge
          rw [List.getElem?_eq_none (by omega)] at hi
          cases hi
        rw [List.getElem?_set]
        simp [hi, hlt, hp]
      · rw [List.getElem?_set, if_neg (fun h : i = j => hj h.symm), if_neg hj]
    · rw [if_neg hp]
      by_cases hj : j = i
      · subst hj
        simp [hi, hp]
      · simp [hj]

/-- Element view of the per-index error fold of the partial-failure arm:
a pending entry is marked failed iff its index is named. -/
theorem foldl_markEntries_getElem (idxs : List Nat) (wb : WriteBatch) (j : Nat) :
    (idxs.foldl WriteBatch.MarkUnmarkedEntryError wb)[j]? =
      match wb[j]? with
      | some e => some (if j ∈ idxs ∧ e.result = writeBatchEntryResult.pending then
          { e with result := (writeBatchEntryResult.failure BlockError.memInsertError) }
        else e)
      | none => none := by
  induction idxs generalizing wb with
  | nil =>
    rcases he : wb[j]? with _ | e <;> simp [he]
  | cons i rest ih =>
    rw [List.foldl_cons, ih, markEntry_getElem]
    by_cases hj : j = i
    · subst hj
      rcases he : wb[j]? with _ | e
      · simp
      · by_cases hp : e.result = writeBatchEntryResult.pending
        · simp [hp]
        · simp [hp]
    · rcases he : wb[j]? with _ | e
      · simp [hj]
      · have hmem : (j ∈ i :: rest) ↔ j ∈ rest := by simp [hj]
        simp [hj, hmem]

/-- Element view of `MarkUnmarkedEntriesSuccess`. -/
theorem markSuccess_getElem (wb : WriteBatch) (j : Nat) :
    (wb.MarkUnmarkedEntriesSuccess)[j]? = (wb[j]?).map (fun e =>
      if e.result = writeBatchEntryResult.pending then
        { e with result := writeBatchEntryResult.success }
      else e) := by
  unfold WriteBatch.MarkUnmarkedEntriesSuccess
  rw [List.getElem?_map]

/-- On an Open block with a mutable active segment, the batch, counters and
error returned by the write path are those of the insert-outcome arm. -/
theorem writeBatch_open_returns (b : Block) (inserts : WriteBatch)
    (outcome : insertOutcome) (now : Int) (a0 : activeSegment) (s0 : segmentData)
    (hopen : b.state = blockStateOpen)
    (hfind : findFirstMutable b.activeSegments = some a0)
    (hseg : a0.mutableSegment = some s0) :
    (b.WriteBatch inserts outcome now).2.1 = (markResults inserts outcome).1
    ∧ (b.WriteBatch inserts outcome now).2.2.1 = (markResults inserts outcome).2.1
    ∧ (b.WriteBatch inserts outcome now).2.2.2 = (markResults inserts outcome).2.2 := by
  unfold Block.WriteBatch
  rw [if_neg (by simp [hopen]), hfind]
  dsimp only
  rw [hseg]
  exact ⟨rfl, rfl, rfl⟩

/-- C4: a `WriteBatch` on an Open block (with its mutable active segment in
place, every entry still unmarked) whose insert reports a batch-partial
error with `numErr` named indices marks exactly the named in-range indices
as Error and every other entry as Success, and returns
`NumSuccess = len − numErr`, `NumError = numErr` with the partial error. -/
theorem c4_write_batch_partial (b : Block) (inserts : WriteBatch)
    (errIdxs : List Nat) (now : Int) (a0 : activeSegment) (s0 : segmentData)
    (hopen : b.state = blockStateOpen)
    (hfind : findFirstMutable b.activeSegments = some a0)
    (hseg : a0.mutableSegment = some s0)
    (hpending : ∀ e ∈ inserts, e.result = writeBatchEntryResult.pending) :
    ((b.WriteBatch inserts (insertOutcome.partialErrorOutcome errIdxs) now).2.2.1 =
      ⟨(inserts.length : Int) - (errIdxs.length : Int), (errIdxs.length : Int)⟩)
    ∧ ((b.WriteBatch inserts (insertOutcome.partialErrorOutcome errIdxs) now).2.2.2 =
      some (BlockError.batchPartialError errIdxs))
    ∧ (∀ (j : Nat) (e : writeBatchEntry), inserts[j]? = some e → j ∈ errIdxs →
        ((b.WriteBatch inserts (insertOutcome.partialErrorOutcome errIdxs) now).2.1)[j]? =
          some { e with result := (writeBatchEntryResult.failure BlockError.memInsertError) })
    ∧ (∀ (j : Nat) (e : writeBatchEntry), inserts[j]? = some e → j ∉ errIdxs →
        ((b.WriteBatch inserts (insertOutcome.partialErrorOutcome errIdxs) now).2.1)[j]? =
          some { e with result := writeBatchEntryResult.success }) := by
  obtain ⟨hbatch, hres, herr⟩ :=
    writeBatch_open_returns b inserts (insertOutcome.partialErrorOutcome errIdxs) now
      a0 s0 hopen hfind hseg
  refine ⟨?_, ?_, ?_, ?_⟩
  · rw [hres]
    rfl
  · rw [herr]
    rfl
  · intro j e hj hmem
    have hp : e.result = writeBatchEntryResult.pending :=
      hpending e (List.getElem?_mem hj)
    rw [hbatch]
    show ((errIdxs.foldl WriteBatch.MarkUnmarkedEntryError
      inserts).MarkUnmarkedEntriesSuccess)[j]? = _
    rw [markSuccess_getElem, foldl_markEntries_getElem, hj]
    simp [hmem, hp]
  · intro j e hj hmem
    have hp : e.result = writeBatchEntryResult.pending :=
      hpending e (List.getElem?_mem hj)
    rw [hbatch]
    show ((errIdxs.foldl WriteBatch.MarkUnmarkedEntryError
      inserts).MarkUnmarkedEntriesSuccess)[j]? = _
    rw [markSuccess_getElem, foldl_markEntries_getElem, hj]
    simp [hmem, hp]

/-- Witness for C4 at a concrete two-entry batch with index 1 failed. -/
theorem c4_witness :
    (blkMut7.WriteBatch
      [⟨1, writeBatchEntryResult.pending⟩, ⟨2, writeBatchEntryResult.pending⟩]
      (insertOutcome.partialErrorOutcome [1]) 0).2.2.1 =
      ⟨1, 1⟩ := by
  have h := c4_write_batch_partial blkMut7
    [⟨1, writeBatchEntryResult.pending⟩, ⟨2, writeBatchEntryResult.pending⟩]
    [1] 0 ⟨0, mutableActiveSegmentState, some ⟨1, [7], false, false⟩, none⟩
    ⟨1, [7], false, false⟩ rfl (by decide) rfl (by decide)
  rw [h.1]
  decide

/-- Updating the first mutable segment in place commutes with finding it,
provided the update keeps the segment in Mutable state. -/
theorem findFirstMutable_update (f : activeSegment → activeSegment)
    (hf : ∀ a : activeSegment, a.state = mutableActiveSegmentState →
      (f a).state = mutableActiveSegmentState) :
    ∀ l : List activeSegment,
      findFirstMutable (updateFirstMutable f l) = (findFirstMutable l).map f := by
  intro l
  induction l with
  | nil => rfl
  | cons a rest ih =>
    by_cases ha : a.state = mutableActiveSegmentState
    · have hpa : (a.state == mutableActiveSegmentState) = true := by
        simp [ha]
      have hpfa : ((f a).state == mutableActiveSegmentState) = true := by
        simp [hf a ha]
      simp only [updateFirstMutable, if_pos ha]
      unfold findFirstMutable
      simp only [List.find?_cons, hpfa, hpa]
      rfl
    · have hpa : ¬ (a.state == mutableActiveSegmentState) = true := by
        simp [ha]
      simp only [updateFirstMutable, if_neg ha]
      unfold findFirstMutable at ih ⊢
      simp only [List.find?_cons, Bool.not_eq_true] at hpa
      simp only [List.find?_cons, hpa]
      exact ih

/-- C8: after the insert of a `WriteBatch` that passed the Open-state check,
if the mutable segment's post-insert size exceeds the rotation-size
threshold or its age exceeds the rotation-age threshold, then — before the
lock is released — that segment is sealed in place, a fresh Mutable active
segment (empty, unsealed, carrying the next minted posting id, created at
`now`) sits at the front of `activeSegments`, and the rotation channel holds
a pending signal; `triggerRotations` leaves the single-slot channel full
whether or not a signal was already pending (coalescing). -/
theorem c8_rotation_trigger (b : Block) (inserts : WriteBatch)
    (outcome : insertOutcome) (now : Int) (a0 : activeSegment) (s0 : segmentData)
    (hopen : b.state = blockStateOpen)
    (hfind : findFirstMutable b.activeSegments = some a0)
    (hseg : a0.mutableSegment = some s0)
    (htrig : segmentData.Size
        { s0 with docs := s0.docs ++ insertedDocs inserts outcome } >
          defaultMutableSegmentRotationSize ∨
      now - a0.creationTime > defaultMutableSegmentRotationAge) :
    ((b.WriteBatch inserts outcome now).1.rotateCh = true)
    ∧ ((b.WriteBatch inserts outcome now).1.segmentID = b.segmentID + 1)
    ∧ ((b.WriteBatch inserts outcome now).1.activeSegments.head? =
        some ⟨now, mutableActiveSegmentState,
          some ⟨b.segmentID + 1, [], false, false⟩, none⟩)
    ∧ (findFirstMutable (b.WriteBatch inserts outcome now).1.activeSegments.tail =
        some { a0 with mutableSegment :=
          (some { s0 with docs := (s0.docs ++ insertedDocs inserts outcome), isSealed := true }) })
    ∧ (∀ b' : Block, (Block.triggerRotations b').rotateCh = true) := by
  have hb1 : (b.WriteBatch inserts outcome now).1 =
      (((({ b with activeSegments :=
        (updateFirstMutable
          (fun a => { a with mutableSegment := (some { s0 with docs := (s0.docs ++ insertedDocs inserts outcome) }) })
          b.activeSegments) } : Block).sealFirstMutable).addActiveSegmentWithLock
            now).triggerRotations) := by
    unfold Block.WriteBatch
    rw [if_neg (by simp [hopen]), hfind]
    dsimp only
    rw [hseg]
    dsimp only
    rw [if_pos htrig]
  refine ⟨?_, ?_, ?_, ?_, fun b' => rfl⟩
  · rw [hb1]
    rfl
  · rw [hb1]
    rfl
  · rw [hb1]
    rfl
  · rw [hb1]
    show findFirstMutable (updateFirstMutable
        (fun a => { a with mutableSegment := a.mutableSegment.map segmentData.Seal })
        (updateFirstMutable
          (fun a => { a with mutableSegment := (some { s0 with docs := (s0.docs ++ insertedDocs inserts outcome) }) })
          b.activeSegments)) = _
    rw [findFirstMutable_update
        (fun a => { a with mutableSegment := a.mutableSegment.map segmentData.Seal })
        (fun a ha => ha)
        (updateFirstMutable
          (fun a => { a with mutableSegment := (some { s0 with docs := (s0.docs ++ insertedDocs inserts outcome) }) })
          b.activeSegments),
      findFirstMutable_update
        (fun a => { a with mutableSegment := (some { s0 with docs := (s0.docs ++ insertedDocs inserts outcome) }) })
        (fun a ha => ha)
        b.activeSegments,
      hfind]
    rfl

/-- Witness for C8 at a concrete age-triggered write. -/
theorem c8_witness :
    ((blkMut7.WriteBatch [⟨9, writeBatchEntryResult.pending⟩]
      insertOutcome.ok 40000000000).1.rotateCh = true)
    ∧ ((blkMut7.WriteBatch [⟨9, writeBatchEntryResult.pending⟩]
      insertOutcome.ok 40000000000).1.activeSegments.head? =
        some ⟨40000000000, mutableActiveSegmentState,
          some ⟨2, [], false, false⟩, none⟩) := by
  have h := c8_rotation_trigger blkMut7 [⟨9, writeBatchEntryResult.pending⟩]
    insertOutcome.ok 40000000000
    ⟨0, mutableActiveSegmentState, some ⟨1, [7], false, false⟩, none⟩
    ⟨1, [7], false, false⟩ rfl (by decide) rfl (Or.inr (by decide))
  exact ⟨h.1, h.2.2.1⟩

/-- Selection stops at the first segment that would reach the merge
ceiling. -/
theorem selRot_break (mergeSize acc : Int) (seg : activeSegment)
    (rest : List activeSegment) (hb : mergeSize ≤ acc + seg.Size) :
    selectForRotation mergeSize acc (seg :: rest) = (seg :: rest, [], 0, 0) := by
  simp only [selectForRotation, if_pos hb]

/-- Selection takes a sealed mutable segment, marking it Rotating. -/
theorem selRot_mutable_sealed (mergeSize acc : Int) (seg : activeSegment)
    (rest : List activeSegment) (ms : segmentData)
    (hb : ¬ mergeSize ≤ acc + seg.Size)
    (hst : seg.state = mutableActiveSegmentState)
    (hms : seg.mutableSegment = some ms) (hsl : ms.isSealed = true) :
    selectForRotation mergeSize acc (seg :: rest) =
      ({ seg with state := rotatingActiveSegmentState } ::
          (selectForRotation mergeSize (acc + seg.Size) rest).1,
        ms :: (selectForRotation mergeSize (acc + seg.Size) rest).2.1,
        (selectForRotation mergeSize (acc + seg.Size) rest).2.2.1 + 1,
        (selectForRotation mergeSize (acc + seg.Size) rest).2.2.2) := by
  simp only [selectForRotation, if_neg hb]
  rw [hst, hms]
  dsimp only
  rw [if_pos hsl]

/-- Selection skips an unsealed mutable segment. -/
theorem selRot_mutable_unsealed (mergeSize acc : Int) (seg : activeSegment)
    (rest : List activeSegment) (ms : segmentData)
    (hb : ¬ mergeSize ≤ acc + seg.Size)
    (hst : seg.state = mutableActiveSegmentState)
    (hms : seg.mutableSegment = some ms) (hsl : ms.isSealed = false) :
    selectForRotation mergeSize acc (seg :: rest) =
      (seg :: (selectForRotation mergeSize acc rest).1,
        (selectForRotation mergeSize acc rest).2.1,
        (selectForRotation mergeSize acc rest).2.2.1,
        (selectForRotation mergeSize acc rest).2.2.2) := by
  simp only [selectForRotation, if_neg hb]
  rw [hst, hms]
  dsimp only
  rw [if_neg (by rw [hsl]; exact Bool.false_ne_true)]

/-- Selection skips a mutable-state segment with no wrapped segment. -/
theorem selRot_mutable_none (mergeSize acc : Int) (seg : activeSegment)
    (rest : List activeSegment)
    (hb : ¬ mergeSize ≤ acc + seg.Size)
    (hst : seg.state = mutableActiveSegmentState)
    (hms : seg.mutableSegment = none) :
    selectForRotation mergeSize acc (seg :: rest) =
      (seg :: (selectForRotation mergeSize acc rest).1,
        (selectForRotation mergeSize acc rest).2.1,
        (selectForRotation mergeSize acc rest).2.2.1,
        (selectForRotation mergeSize acc rest).2.2.2) := by
  simp only [selectForRotation, if_neg hb]
  rw [hst, hms]

/-- Selection skips a segment already in Rotating state. -/
theorem selRot_rotating (mergeSize acc : Int) (seg : activeSegment)
    (rest : List activeSegment)
    (hb : ¬ mergeSize ≤ acc + seg.Size)
    (hst : seg.state = rotatingActiveSegmentState) :
    selectForRotation mergeSize acc (seg :: rest) =
      (seg :: (selectForRotation mergeSize acc rest).1,
        (selectForRotation mergeSize acc rest).2.1,
        (selectForRotation mergeSize acc rest).2.2.1,
        (selectForRotation mergeSize acc rest).2.2.2) := by
  simp only [selectForRotation, if_neg hb]
  rw [hst]

/-- Selection takes an FST segment as it stands. -/
theorem selRot_fst_some (mergeSize acc : Int) (seg : activeSegment)
    (rest : List activeSegment) (fs : segmentData)
    (hb : ¬ mergeSize ≤ acc + seg.Size)
    (hst : seg.state = fstActiveSegmentState)
    (hfs : seg.fstSegment = some fs) :
    selectForRotation mergeSize acc (seg :: rest) =
      (seg :: (selectForRotation mergeSize (acc + seg.Size) rest).1,
        fs :: (selectForRotation mergeSize (acc + seg.Size) rest).2.1,
        (selectForRotation mergeSize (acc + seg.Size) rest).2.2.1,
        (selectForRotation mergeSize (acc + seg.Size) rest).2.2.2 + 1) := by
  simp only [selectForRotation, if_neg hb]
  rw [hst, hfs]

/-- Selection skips an FST-state segment with no wrapped segment. -/
theorem selRot_fst_none (mergeSize acc : Int) (seg : activeSegment)
    (rest : List activeSegment)
    (hb : ¬ mergeSize ≤ acc + seg.Size)
    (hst : seg.state = fstActiveSegmentState)
    (hfs : seg.fstSegment = none) :
    selectForRotation mergeSize acc (seg :: rest) =
      (seg :: (selectForRotation mergeSize acc rest).1,
        (selectForRotation mergeSize acc rest).2.1,
        (selectForRotation mergeSize acc rest).2.2.1,
        (selectForRotation mergeSize acc rest).2.2.2) := by
  simp only [selectForRotation, if_neg hb]
  rw [hst, hfs]

/-- In a list whose `filterMap` image is duplicate-free, two elements
mapping to the same value coincide. -/
theorem nodup_filterMap_inj {α β : Type} (f : α → Option β) :
    ∀ (l : List α), (l.filterMap f).Nodup →
      ∀ a ∈ l, ∀ b ∈ l, ∀ x : β, f a = some x → f b = some x → a = b := by
  intro l
  induction l with
  | nil =>
    intro _ a ha
    cases ha
  | cons c rest ih =>
    intro hnd a ha b hb x hfa hfb
    rcases hfc : f c with _ | y
    · rw [List.filterMap_cons_none hfc] at hnd
      rcases List.mem_cons.mp ha with rfl | ha'
      · rw [hfc] at hfa
        cases hfa
      · rcases List.mem_cons.mp hb with rfl | hb'
        · rw [hfc] at hfb
          cases hfb
        · exact ih hnd a ha' b hb' x hfa hfb
    · rw [List.filterMap_cons_some hfc] at hnd
      rw [List.nodup_cons] at hnd
      obtain ⟨hy, hnd'⟩ := hnd
      rcases List.mem_cons.mp ha with rfl | ha'
      · rcases List.mem_cons.mp hb with rfl | hb'
        · rfl
        · exfalso
          rw [hfc] at hfa
          cases hfa
          exact hy (List.mem_filterMap.mpr ⟨b, hb', hfb⟩)
      · rcases List.mem_cons.mp hb with rfl | hb'
        · exfalso
          rw [hfc] at hfb
          cases hfb
          exact hy (List.mem_filterMap.mpr ⟨a, ha', hfa⟩)
        · exact ih hnd' a ha' b hb' x hfa hfb

/-- A list with an unsealed mutable segment satisfies
`hasUnsealedMutable`. -/
theorem hasUnsealedMutable_of_mem (l : List activeSegment) (a : activeSegment)
    (s : segmentData) (ha : a ∈ l) (hst : a.state = mutableActiveSegmentState)
    (hms : a.mutableSegment = some s) (hun : s.isSealed = false) :
    hasUnsealedMutable l = true := by
  unfold hasUnsealedMutable
  rw [List.any_eq_true]
  exact ⟨a, ha, by simp [hst, hms, hun]⟩

/-- Extracting the unsealed mutable witness from `hasUnsealedMutable`. -/
theorem hasUnsealedMutable_elim (l : List activeSegment)
    (h : hasUnsealedMutable l = true) :
    ∃ a ∈ l, a.state = mutableActiveSegmentState ∧
      ∃ s : segmentData, a.mutableSegment = some s ∧ s.isSealed = false := by
  unfold hasUnsealedMutable at h
  rw [List.any_eq_true] at h
  obtain ⟨a, ha, hcond⟩ := h
  rw [Bool.and_eq_true] at hcond
  obtain ⟨h1, h2⟩ := hcond
  refine ⟨a, ha, by simpa using h1, ?_⟩
  rcases hms : a.mutableSegment with _ | s
  · rw [hms] at h2
    cases h2
  · rw [hms] at h2
    exact ⟨s, rfl, by simpa using h2⟩

/-- An unsealed mutable segment certifies at least one active segment in
Mutable state. -/
theorem hasUnsealedMutable_countP (l : List activeSegment)
    (h : hasUnsealedMutable l = true) :
    1 ≤ l.countP (fun a => a.state == mutableActiveSegmentState) := by
  obtain ⟨a, ha, hst, _⟩ := hasUnsealedMutable_elim l h
  by_contra hlt
  push_neg at hlt
  have h0 : l.countP (fun a => a.state == mutableActiveSegmentState) = 0 := by omega
  rw [List.countP_eq_zero] at h0
  exact h0 a ha (by simp [hst])

/-- The selection walk keeps every unsealed mutable segment untouched, and
every selected segment datum is the wrapped segment of some listed active
segment that is either in FST state or a sealed mutable. -/
theorem selectForRotation_facts (mergeSize : Int) :
    ∀ (l : List activeSegment) (acc : Int),
      (∀ a ∈ l, a.state = mutableActiveSegmentState →
        (∀ s : segmentData, a.mutableSegment = some s → s.isSealed = false) →
        a ∈ (selectForRotation mergeSize acc l).1)
      ∧ (∀ d ∈ (selectForRotation mergeSize acc l).2.1,
          ∃ seg ∈ l, activeSegment.wrappedId seg = some d.segId ∧
            (seg.state = fstActiveSegmentState ∨
             (seg.state = mutableActiveSegmentState ∧ seg.mutableSegment = some d ∧
              d.isSealed = true))) := by
  intro l
  induction l with
  | nil =>
    intro acc
    refine ⟨fun a ha => absurd ha (List.not_mem_nil a), fun d hd => ?_⟩
    simp [selectForRotation] at hd
  | cons seg rest ih =>
    intro acc
    by_cases hb : mergeSize ≤ acc + seg.Size
    · rw [selRot_break mergeSize acc seg rest hb]
      refine ⟨fun a ha _ _ => ha, fun d hd => ?_⟩
      simp at hd
    · rcases hst : seg.state with _ | _ | _
      · -- mutable state
        rcases hms : seg.mutableSegment with _ | ms
        · rw [selRot_mutable_none mergeSize acc seg rest hb hst hms]
          refine ⟨?_, ?_⟩
          · intro a ha hast hforall
            rcases List.mem_cons.mp ha with rfl | ha'
            · exact List.mem_cons_self _ _
            · exact List.mem_cons_of_mem _ ((ih acc).1 a ha' hast hforall)
          · intro d hd
            dsimp only at hd
            obtain ⟨seg', hmem, hw, hdisj⟩ := (ih acc).2 d hd
            exact ⟨seg', List.mem_cons_of_mem _ hmem, hw, hdisj⟩
        · by_cases hsl : ms.isSealed = true
          · rw [selRot_mutable_sealed mergeSize acc seg rest ms hb hst hms hsl]
            refine ⟨?_, ?_⟩
            · intro a ha hast hforall
              rcases List.mem_cons.mp ha with rfl | ha'
              · have := hforall ms hms
                rw [hsl] at this
                cases this
              · dsimp only
                exact List.mem_cons_of_mem _ ((ih (acc + seg.Size)).1 a ha' hast hforall)
            · intro d hd
              dsimp only at hd
              rcases List.mem_cons.mp hd with rfl | hd'
              · refine ⟨seg, List.mem_cons_self _ _, ?_, Or.inr ⟨hst, hms, hsl⟩⟩
                unfold activeSegment.wrappedId activeSegment.segment
                rw [hst]
                dsimp only
                rw [hms]
                rfl
              · obtain ⟨seg', hmem, hw, hdisj⟩ := (ih (acc + seg.Size)).2 d hd'
                exact ⟨seg', List.mem_cons_of_mem _ hmem, hw, hdisj⟩
          · have hsl' : ms.isSealed = false := by
              revert hsl
              cases ms.isSealed <;> simp
            rw [selRot_mutable_unsealed mergeSize acc seg rest ms hb hst hms hsl']
            refine ⟨?_, ?_⟩
            · intro a ha hast hforall
              rcases List.mem_cons.mp ha with rfl | ha'
              · exact List.mem_cons_self _ _
              · exact List.mem_cons_of_mem _ ((ih acc).1 a ha' hast hforall)
            · intro d hd
              dsimp only at hd
              obtain ⟨seg', hmem, hw, hdisj⟩ := (ih acc).2 d hd
              exact ⟨seg', List.mem_cons_of_mem _ hmem, hw, hdisj⟩
      · -- rotating state
        rw [selRot_rotating mergeSize acc seg rest hb hst]
        refine ⟨?_, ?_⟩
        · intro a ha hast hforall
          rcases List.mem_cons.mp ha with rfl | ha'
          · exact List.mem_cons_self _ _
          · exact List.mem_cons_of_mem _ ((ih acc).1 a ha' hast hforall)
        · intro d hd
          dsimp only at hd
          obtain ⟨seg', hmem, hw, hdisj⟩ := (ih acc).2 d hd
          exact ⟨seg', List.mem_cons_of_mem _ hmem, hw, hdisj⟩
      · -- fst state
        rcases hfs : seg.fstSegment with _ | fs
        · rw [selRot_fst_none mergeSize acc seg rest hb hst hfs]
          refine ⟨?_, ?_⟩
          · intro a ha hast hforall
            rcases List.mem_cons.mp ha with rfl | ha'
            · exact List.mem_cons_self _ _
            · exact List.mem_cons_of_mem _ ((ih acc).1 a ha' hast hforall)
          · intro d hd
            dsimp only at hd
            obtain ⟨seg', hmem, hw, hdisj⟩ := (ih acc).2 d hd
            exact ⟨seg', List.mem_cons_of_mem _ hmem, hw, hdisj⟩
        · rw [selRot_fst_some mergeSize acc seg rest fs hb hst hfs]
          refine ⟨?_, ?_⟩
          · intro a ha hast hforall
            rcases List.mem_cons.mp ha with rfl | ha'
            · exact List.mem_cons_self _ _
            · exact List.mem_cons_of_mem _ ((ih (acc + seg.Size)).1 a ha' hast hforall)
          · intro d hd
            dsimp only at hd
            rcases List.mem_cons.mp hd with rfl | hd'
            · refine ⟨seg, List.mem_cons_self _ _, ?_, Or.inl hst⟩
              unfold activeSegment.wrappedId activeSegment.segment
              rw [hst]
              dsimp only
              rw [hfs]
              rfl
            · obtain ⟨seg', hmem, hw, hdisj⟩ := (ih (acc + seg.Size)).2 d hd'
              exact ⟨seg', List.mem_cons_of_mem _ hmem, hw, hdisj⟩

/-- One rotator pass never changes the block state and never removes an
unsealed mutable active segment, provided the wrapped posting-id offsets are
pairwise distinct (the block's id-uniqueness invariant): the selection takes
only sealed mutable and FST segments, and the swap removes only selected
segments. -/
theorem rotate_preserves_unsealed_mutable (b : Block) (now : Int)
    (mergeOk sealOk fstOk : Bool)
    (hnd : (b.activeSegments.filterMap activeSegment.wrappedId).Nodup)
    (hm : hasUnsealedMutable b.activeSegments = true) :
    (b.rotateMutableActiveSegments now mergeOk sealOk fstOk).state = b.state
    ∧ hasUnsealedMutable
        (b.rotateMutableActiveSegments now mergeOk sealOk fstOk).activeSegments = true := by
  obtain ⟨a, ha, hst, s, hms, hun⟩ := hasUnsealedMutable_elim _ hm
  have hperm := List.perm_insertionSort
    (fun x y : activeSegment => x.Size < y.Size) b.activeSegments
  have hsorted : a ∈ b.activeSegments.insertionSort (fun x y => x.Size < y.Size) :=
    hperm.mem_iff.mpr ha
  have hnd' : ((b.activeSegments.insertionSort
      (fun x y => x.Size < y.Size)).filterMap activeSegment.wrappedId).Nodup :=
    ((hperm.filterMap activeSegment.wrappedId).nodup_iff).mpr hnd
  have hfacts := selectForRotation_facts defaultMutableSegmentRotationMergeSize
    (b.activeSegments.insertionSort (fun x y => x.Size < y.Size)) 0
  have hkeep : a ∈ (selectForRotation defaultMutableSegmentRotationMergeSize 0
      (b.activeSegments.insertionSort (fun x y => x.Size < y.Size))).1 := by
    refine hfacts.1 a hsorted hst (fun s' hs' => ?_)
    rw [hms] at hs'
    cases hs'
    exact hun
  have hwa : activeSegment.wrappedId a = some s.segId := by
    unfold activeSegment.wrappedId activeSegment.segment
    rw [hst]
    dsimp only
    rw [hms]
    rfl
  have hnotsel : ∀ d ∈ (selectForRotation defaultMutableSegmentRotationMergeSize 0
      (b.activeSegments.insertionSort (fun x y => x.Size < y.Size))).2.1,
      d.segId ≠ s.segId := by
    intro d hd heq
    obtain ⟨seg', hmem, hw, hdisj⟩ := hfacts.2 d hd
    have heqseg : seg' = a := by
      apply nodup_filterMap_inj activeSegment.wrappedId _ hnd' seg' hmem a hsorted s.segId
      · rw [hw, heq]
      · exact hwa
    rcases hdisj with hfst | ⟨hmut, hsome, hsl⟩
    · rw [heqseg, hst] at hfst
      cases hfst
    · rw [heqseg, hms] at hsome
      injection hsome with hds
      rw [← hds] at hsl
      rw [hun] at hsl
      cases hsl
  unfold Block.rotateMutableActiveSegments
  dsimp only
  by_cases hexit : ((selectForRotation defaultMutableSegmentRotationMergeSize 0
      (b.activeSegments.insertionSort (fun x y => x.Size < y.Size))).2.1.length = 0 ∨
    ((selectForRotation defaultMutableSegmentRotationMergeSize 0
      (b.activeSegments.insertionSort (fun x y => x.Size < y.Size))).2.1.length = 1 ∧
     (selectForRotation defaultMutableSegmentRotationMergeSize 0
      (b.activeSegments.insertionSort (fun x y => x.Size < y.Size))).2.2.1 = 0))
  · rw [if_pos hexit]
    exact ⟨rfl, hasUnsealedMutable_of_mem _ a s hkeep hst hms hun⟩
  · rw [if_neg hexit]
    by_cases hfail : (mergeOk = false ∨ sealOk = false ∨ fstOk = false)
    · rw [if_pos hfail]
      exact ⟨rfl, hasUnsealedMutable_of_mem _ a s hkeep hst hms hun⟩
    · rw [if_neg hfail]
      refine ⟨rfl, ?_⟩
      apply hasUnsealedMutable_of_mem _ a s ?_ hst hms hun
      apply List.mem_append_left
      apply List.mem_filter.mpr
      refine ⟨hkeep, ?_⟩
      dsimp only
      rw [hwa]
      dsimp only
      rw [decide_eq_true_eq]
      intro hmem'
      obtain ⟨d, hd, hdeq⟩ := List.mem_map.mp hmem'
      exact hnotsel d hd hdeq

/-- Writing the insert result into the first mutable segment in place keeps
an unsealed mutable segment in the list. -/
theorem update_insert_preserves_unsealed (d : List Nat) :
    ∀ (l : List activeSegment) (a0 : activeSegment) (s0 : segmentData),
      findFirstMutable l = some a0 → a0.mutableSegment = some s0 →
      hasUnsealedMutable l = true →
      hasUnsealedMutable (updateFirstMutable
        (fun a => { a with mutableSegment := (some { s0 with docs := d }) }) l) = true := by
  intro l
  induction l with
  | nil =>
    intro a0 s0 hfind
    simp [findFirstMutable] at hfind
  | cons c rest ih =>
    intro a0 s0 hfind hseg hm
    by_cases hc : c.state = mutableActiveSegmentState
    · have hpa : (c.state == mutableActiveSegmentState) = true := by
        simp [hc]
      have ha0 : a0 = c := by
        unfold findFirstMutable at hfind
        simp only [List.find?_cons, hpa] at hfind
        cases hfind
        rfl
      simp only [updateFirstMutable, if_pos hc]
      obtain ⟨a, ha, hast, s, hms, hun⟩ := hasUnsealedMutable_elim _ hm
      rcases List.mem_cons.mp ha with rfl | hrest
      · have hss : s = s0 := by
          rw [ha0, hms] at hseg
          injection hseg
        refine hasUnsealedMutable_of_mem _ _ { s0 with docs := d }
          (List.mem_cons_self _ _) hast rfl ?_
        show s0.isSealed = false
        rw [← hss]
        exact hun
      · exact hasUnsealedMutable_of_mem _ a s (List.mem_cons_of_mem _ hrest) hast hms hun
    · have hpa : (c.state == mutableActiveSegmentState) = false := by
        simp [hc]
      have hfind' : findFirstMutable rest = some a0 := by
        unfold findFirstMutable at hfind ⊢
        simp only [List.find?_cons, hpa] at hfind
        exact hfind
      have hm' : hasUnsealedMutable rest = true := by
        obtain ⟨a, ha, hast, s, hms, hun⟩ := hasUnsealedMutable_elim _ hm
        rcases List.mem_cons.mp ha with rfl | hrest
        · exact absurd hast hc
        · exact hasUnsealedMutable_of_mem _ a s hrest hast hms hun
      simp only [updateFirstMutable, if_neg hc]
      obtain ⟨a, ha, hast, s, hms, hun⟩ :=
        hasUnsealedMutable_elim _ (ih a0 s0 hfind' hseg hm')
      exact hasUnsealedMutable_of_mem _ a s (List.mem_cons_of_mem _ ha) hast hms hun

/-- A freshly added active segment is an unsealed mutable at the front. -/
theorem addActive_hasUnsealed (b : Block) (now : Int) :
    hasUnsealedMutable (b.addActiveSegmentWithLock now).activeSegments = true := by
  refine hasUnsealedMutable_of_mem _
    ⟨now, mutableActiveSegmentState, some ⟨b.segmentID + 1, [], false, false⟩, none⟩
    ⟨b.segmentID + 1, [], false, false⟩ ?_ rfl rfl rfl
  unfold Block.addActiveSegmentWithLock
  exact List.mem_cons_self _ _

/-- The write path keeps an Open block Open and keeps an unsealed mutable
active segment present, on every arm, with or without the rotation
trigger. -/
theorem writeBatch_preserves_unsealed_mutable (b : Block) (inserts : WriteBatch)
    (outcome : insertOutcome) (now : Int)
    (hopen : b.state = blockStateOpen)
    (hm : hasUnsealedMutable b.activeSegments = true) :
    (b.WriteBatch inserts outcome now).1.state = blockStateOpen
    ∧ hasUnsealedMutable (b.WriteBatch inserts outcome now).1.activeSegments = true := by
  unfold Block.WriteBatch
  rw [if_neg (by simp [hopen])]
  rcases hfind : findFirstMutable b.activeSegments with _ | a0
  · exact ⟨hopen, hm⟩
  · dsimp only
    rcases hseg : a0.mutableSegment with _ | s0
    · exact ⟨hopen, hm⟩
    · dsimp only
      by_cases htrig :
        (({ s0 with docs := s0.docs ++ insertedDocs inserts outcome } : segmentData).Size >
            defaultMutableSegmentRotationSize ∨
          now - a0.creationTime > defaultMutableSegmentRotationAge)
      · rw [if_pos htrig]
        exact ⟨hopen, addActive_hasUnsealed _ now⟩
      · rw [if_neg htrig]
        exact ⟨hopen,
          update_insert_preserves_unsealed (s0.docs ++ insertedDocs inserts outcome)
            b.activeSegments a0 s0 hfind hseg hm⟩

/-- C2 (refuting theorem): starting from a fresh block, a single write whose
age trigger fires leaves the block Open with two active segments in the
Mutable state — the freshly allocated one and the just-sealed one, which
keeps the Mutable state marker until the rotator picks it up — so "exactly
one active segment in Mutable state" fails after a seal-trigger write. -/
theorem c2_counterexample :
    (((NewBlock 0 3600000000000 0).WriteBatch [⟨5, writeBatchEntryResult.pending⟩]
      insertOutcome.ok 40000000000).1.state = blockStateOpen)
    ∧ (((NewBlock 0 3600000000000 0).WriteBatch [⟨5, writeBatchEntryResult.pending⟩]
      insertOutcome.ok 40000000000).1.activeSegments.countP
        (fun a => a.state == mutableActiveSegmentState) = 2) := by
  constructor
  · decide
  · decide

/-- C2 (amended): whenever the block is Open, at least one active segment is
in the Mutable state — in fact one whose wrapped segment is still unsealed.
The invariant is established by `NewBlock` and preserved by every write
(plain or seal-triggering) and by every rotator pass (given the block's
posting-id-uniqueness invariant on wrapped segments), all of which keep the
block Open. -/
theorem c2_open_has_mutable_segment :
    (∀ startTime blockSize now : Int,
      (NewBlock startTime blockSize now).state = blockStateOpen ∧
      hasUnsealedMutable (NewBlock startTime blockSize now).activeSegments = true)
    ∧ (∀ l : List activeSegment, hasUnsealedMutable l = true →
        1 ≤ l.countP (fun a => a.state == mutableActiveSegmentState))
    ∧ (∀ (b : Block) (inserts : WriteBatch) (outcome : insertOutcome) (now : Int),
        b.state = blockStateOpen → hasUnsealedMutable b.activeSegments = true →
        ((b.WriteBatch inserts outcome now).1.state = blockStateOpen ∧
         hasUnsealedMutable (b.WriteBatch inserts outcome now).1.activeSegments = true))
    ∧ (∀ (b : Block) (now : Int) (mergeOk sealOk fstOk : Bool),
        b.state = blockStateOpen →
        (b.activeSegments.filterMap activeSegment.wrappedId).Nodup →
        hasUnsealedMutable b.activeSegments = true →
        ((b.rotateMutableActiveSegments now mergeOk sealOk fstOk).state =
            blockStateOpen ∧
         hasUnsealedMutable
           (b.rotateMutableActiveSegments now mergeOk sealOk fstOk).activeSegments =
            true)) := by
  refine ⟨fun startTime blockSize now => ⟨rfl, rfl⟩, hasUnsealedMutable_countP,
    writeBatch_preserves_unsealed_mutable, ?_⟩
  intro b now mergeOk sealOk fstOk hopen hnd hm
  obtain ⟨hst, hmut⟩ := rotate_preserves_unsealed_mutable b now mergeOk sealOk fstOk hnd hm
  rw [hopen] at hst
  exact ⟨hst, hmut⟩

/-- Witness for the amended C2: a concrete rotator pass that merges the
sealed mutable segment keeps the unsealed one. -/
theorem c2_witness :
    blkTwoMut.state = blockStateOpen
    ∧ ((blkTwoMut.rotateMutableActiveSegments 50 true true true).state =
        blockStateOpen)
    ∧ hasUnsealedMutable
        (blkTwoMut.rotateMutableActiveSegments 50 true true true).activeSegments =
        true := by
  refine ⟨rfl, ?_, ?_⟩
  · exact (c2_open_has_mutable_segment.2.2.2 blkTwoMut 50 true true true rfl
      (by decide) (by decide)).1
  · exact (c2_open_has_mutable_segment.2.2.2 blkTwoMut 50 true true true rfl
      (by decide) (by decide)).2

end M3IndexBlock
